/-
Verification of the hyperspy event/notification core (`hyperspy/events.py`)
against its natural-language specification.

The Python module is shallowly embedded: each class becomes a Lean structure,
each method a Lean function over that structure.  Python dictionaries are
modelled as association lists (insertion-ordered, as in the source the
iteration order of a dict is taken to be its insertion order); Python sets are
modelled as insertion-ordered duplicate-free lists (`addToSet` inserts only
when absent).  Values passed to `trigger` are opaque and modelled as `Nat`.
Python exceptions are modelled by the `PyErr` type; fallible operations
return `Except PyErr _` or carry an `Option PyErr` component.

The source is Python 2: in particular `inspect.getargspec` on a bound method
reports the full declared parameter list *including* the receiver (`self`),
and `dict.copy()` is a shallow copy (the set objects stored as values are
shared with the original dictionary).  Both facts are reflected below.
-/
import Mathlib

set_option autoImplicit false

/-- Values handed to `trigger` are opaque; only identity matters. -/
abbrev Value := Nat

/-- Keyword arguments of a call: a Python dict `str -> value`, modelled as an
association list with distinct keys (a Python call cannot repeat a keyword). -/
abbrev Kwargs := List (String × Value)

/-- First-match lookup in a keyword dictionary (`c in kwargs` / `kwargs[c]`). -/
def kwLookup : Kwargs → String → Option Value
  | [], _ => none
  | (k, v) :: rest, s => if k = s then some v else kwLookup rest s

/-- Removal of a key from a keyword dictionary (`kwargs.pop(c)`). -/
def kwPop : Kwargs → String → Kwargs
  | [], _ => []
  | (k, v) :: rest, s => if k = s then kwPop rest s else (k, v) :: kwPop rest s

/-- An arity selector: a key of the `_connected` dictionary of an `Event`.
Either the string sentinel `'all'` or a non-negative integer. -/
inductive Nargs where
  | all
  | num (n : Nat)
deriving DecidableEq, Repr

/-- The `nargs` argument accepted by `Event.connect`: `'all'`, `'auto'`,
`None`, or an integer. -/
inductive NargsArg where
  | all
  | auto
  | noneArg
  | num (n : Nat)
deriving DecidableEq, Repr

/-- A connected callback.  `id` is the object identity; `args` is the declared
parameter list as reported by Python 2 `inspect.getargspec` (for a bound
method this *includes* the receiver parameter, because `getargspec` unwraps
to `im_func`); `varargs`/`keywords` record a `*args`/`**kwargs` declaration;
`isMethod` records whether `inspect.ismethod` holds for the object. -/
structure Callback where
  id : Nat
  args : List String
  varargs : Bool
  keywords : Bool
  isMethod : Bool
deriving DecidableEq, Repr

/-- Python exceptions raised by the embedded code. -/
inductive PyErr where
  /-- `ValueError("Tried to call ... which require %d args with only %d.")`
  raised by `Event.trigger`. -/
  | valueErrorInsufficientArgs
  /-- `ValueError("No viable suppression targets added!")` raised by
  `EventSupressor.add`. -/
  | valueErrorNoTargets
  /-- `TypeError` (e.g. `len()` applied to an object without `__len__`). -/
  | typeError
  /-- `RuntimeError` (a set changed size while being iterated, or a
  context-manager generator was re-entered after exhaustion). -/
  | runtimeError
  /-- `IndexError` (`pop` from an empty list). -/
  | indexError
  /-- `KeyError` raised by `Events.__getattr__` for an unregistered name. -/
  | keyError
deriving DecidableEq, Repr

/-- The state of an `Event` object.  `doc` is `__doc__`; `arguments` is
`_arguments` (`None` or a non-empty tuple of argument names); `connected` is
the `_connected` dict from arity selector to set of callbacks;
`suppressFlag` is `_suppress`; `sigEnforced` records whether `__init__` ran
`_trigger_maker` and replaced `trigger` with a signature-enforcing wrapper. -/
structure Event where
  doc : String
  arguments : Option (List String)
  connected : List (Nargs × List Callback)
  suppressFlag : Bool
  sigEnforced : Bool
deriving DecidableEq, Repr

/-- `Event.__init__(doc, arguments)`: `_arguments` is `tuple(arguments) if
arguments else None` (so an empty iterable becomes `None`), `_connected` is
empty, `_suppress` is false, and `_trigger_maker` runs exactly when
`arguments` is truthy. -/
def Event.init (doc : String) (arguments : Option (List String)) : Event :=
  let a : Option (List String) :=
    match arguments with
    | some l => if l.isEmpty then none else some l
    | none => none
  ⟨doc, a, [], false, a.isSome⟩

/-- Resolution of the `nargs` argument performed at the top of
`Event.connect`: `'auto'` inspects `getargspec` (`*args`/`**kwargs` give
`'all'`, otherwise `len(spec.args)` — which for a bound method includes the
receiver, see `Callback.args`); `None` becomes `0`. -/
def resolveNargs (f : Callback) : NargsArg → Nargs
  | .all => .all
  | .auto => if f.varargs || f.keywords then .all else .num f.args.length
  | .noneArg => .num 0
  | .num n => .num n

/-- Python `set.add`: insert only when absent (insertion order kept). -/
def addToSet (f : Callback) (s : List Callback) : List Callback :=
  if f ∈ s then s else s ++ [f]

/-- `Event.connect(function, nargs)`: create the selector entry when missing,
then add the callback to its set.  (When the key is present the update is
applied to every entry with that key; a dict built by these operations has
at most one entry per key, so this agrees with the source.) -/
def Event.connect (e : Event) (f : Callback) (na : NargsArg) : Event :=
  let sel := resolveNargs f na
  if e.connected.any (fun p => p.1 = sel) then
    { e with connected :=
        e.connected.map (fun p => if p.1 = sel then (p.1, addToSet f p.2) else p) }
  else
    { e with connected := e.connected ++ [(sel, [f])] }

/-- `Event.disconnect(function)`: remove the callback from the set of every
arity selector (the selector keys themselves are kept). -/
def Event.disconnect (e : Event) (f : Callback) : Event :=
  { e with connected := e.connected.map (fun p => (p.1, p.2.filter (fun g => g ≠ f))) }

/-- The set stored under one selector key (the union of all entries with that
key; a well-formed dict has at most one). -/
def getSet (e : Event) (sel : Nargs) : List Callback :=
  (e.connected.filterMap (fun p => if p.1 = sel then some p.2 else none)).flatten

/-- Whether a callback is registered under a given arity selector. -/
def Event.memUnder (e : Event) (sel : Nargs) (f : Callback) : Bool :=
  decide (f ∈ getSet e sel)

/-- `Event.__deepcopy__`: returns `type(self)()`, i.e. a fresh default
`Event` — empty docstring, no fixed arguments, no connections,
unsuppressed, and no signature-enforcing trigger wrapper. -/
def Event.deepcopy (_e : Event) : Event :=
  Event.init "" none

/-- Entry of the `Event.suppress()` context manager: save the old value of
`_suppress` and set the flag (the saved value is the data the generator holds
across the `yield`). -/
def Event.suppressEnter (e : Event) : Bool × Event :=
  (e.suppressFlag, { e with suppressFlag := true })

/-- Exit of the `Event.suppress()` context manager (the `finally` block,
run on normal completion and on an exception alike): restore the saved
value of `_suppress`. -/
def Event.suppressExit (old : Bool) (e : Event) : Event :=
  { e with suppressFlag := old }

/-- The `found` list computed by `Event.suppress_callback`: the arity
selectors whose set currently holds the callback, in dictionary order. -/
def Event.scFound (e : Event) (f : Callback) : List Nargs :=
  (e.connected.filter (fun p => p.2.contains f)).map Prod.fst

/-- Conversion of a stored selector key back into a `connect` argument, as
done when `suppress_callback` reconnects (`self.connect(function, nargs)`
with `nargs` a key of `_connected`). -/
def ofNargs : Nargs → NargsArg
  | .all => .all
  | .num n => .num n

/-- Entry of `Event.suppress_callback(function)`: compute `found`; when it is
non-empty, disconnect the callback (from every selector); when empty, the
scope is a pure no-op. -/
def Event.suppressCallbackEnter (e : Event) (f : Callback) : List Nargs × Event :=
  let found := e.scFound f
  if found.isEmpty then ([], e) else (found, e.disconnect f)

/-- Exit of `Event.suppress_callback(function)` (the `finally` block):
reconnect the callback under each selector recorded in `found`. -/
def Event.suppressCallbackExit (e : Event) (f : Callback) (found : List Nargs) : Event :=
  found.foldl (fun e2 sel => e2.connect f (ofNargs sel)) e

/-- Filling of positional arguments from keyword arguments by the event's own
declared argument names: the `while` loop of `Event._trigger_nargs` (walk the
declared names in order while fewer than `nargs` positionals are available;
a name present in `kwargs` is popped and appended). -/
def fillFromEvent : List String → Nat → List Value → Kwargs → List Value × Kwargs
  | [], _, args, kw => (args, kw)
  | a :: rest, nargs, args, kw =>
    if args.length < nargs then
      match kwLookup kw a with
      | some v => fillFromEvent rest nargs (args ++ [v]) (kwPop kw a)
      | none => fillFromEvent rest nargs args kw
    else (args, kw)

/-- The `(args, kwargs)` pair after the event-declared-name backfill at the
top of `_trigger_nargs` (`if self.arguments:` — the constructor guarantees
`_arguments` is `None` or non-empty, so truthiness is `isSome`). -/
def eventFill (e : Event) (nargs : Nat) (args : List Value) (kwargs : Kwargs) :
    List Value × Kwargs :=
  match e.arguments with
  | some l => fillFromEvent l nargs args kwargs
  | none => (args, kwargs)

/-- The `candidates` computation of `_trigger_nargs`:
`candidates = list(spec.args)[len(args):]`, then in the bound-method case
`candidates = candidates.pop()`. -/
def candidatesOf (f : Callback) (filledLen : Nat) : Except PyErr (List String) :=
  let cands := f.args.drop filledLen
  if f.isMethod then
    match cands.getLast? with
    | none => .error .indexError
    | some s => .ok (s.data.map String.singleton)
  else .ok cands

/-- `Event._trigger_nargs(self, f, args, kwargs, nargs)`, up to the final
call: computes the positional argument list `args[0:nargs]` the callback is
invoked with.  When too few positionals are supplied it first backfills from
`kwargs` by the event's declared argument names, then by the callback's
remaining declared parameter names.  In the bound-method case the source
runs `candidates = candidates.pop()`: `list.pop()` returns the *last
element* (a string), so `candidates` becomes that string and the subsequent
comprehension iterates over its characters; `pop` on an empty list raises
`IndexError`. -/
def Event.triggerNargs (e : Event) (f : Callback) (args : List Value)
    (kwargs : Kwargs) (nargs : Nat) : Except PyErr (List Value) :=
  if args.length < nargs then
    let fk := eventFill e nargs args kwargs
    if fk.1.length < nargs then
      match candidatesOf f fk.1.length with
      | .error er => .error er
      | .ok cands =>
        let matched := cands.filterMap (fun c => kwLookup fk.2 c)
        .ok ((fk.1 ++ matched.take (nargs - fk.1.length)).take nargs)
    else .ok (fk.1.take nargs)
  else .ok (args.take nargs)

/-- A recorded callback invocation: who was called, with which positional
arguments and which keyword arguments (integer-arity calls pass no
keywords). -/
structure Invocation where
  cb : Callback
  posArgs : List Value
  kwargs : Kwargs
deriving DecidableEq, Repr

/-- The behavioural outcome of a `trigger` call: the final event state, the
invocations performed before returning or raising, and the raised exception
if any. -/
structure TrigResult where
  fin : Event
  log : List Invocation
  err : Option PyErr
deriving DecidableEq, Repr

/-- A side effect a callback performs, during its invocation, on the event
being triggered (the reentrant calls relevant to the snapshot rule). -/
inductive EffAct where
  | conn (g : Callback) (na : NargsArg)
  | disc (g : Callback)
deriving DecidableEq, Repr

/-- An effect environment: what each callback (by id) does to the triggering
event when invoked.  Callbacks absent from the list do nothing. -/
abbrev OpEnv := List (Nat × List EffAct)

/-- Lookup of a callback's effects in an environment. -/
def envLookup : OpEnv → Nat → Option (List EffAct)
  | [], _ => none
  | (k, v) :: rest, n => if k = n then some v else envLookup rest n

/-- Application of one reentrant effect to the event. -/
def applyEffect (e : Event) : EffAct → Event
  | .conn g na => e.connect g na
  | .disc g => e.disconnect g

/-- Application of all the effects a callback performs when invoked. -/
def applyEffects (env : OpEnv) (fid : Nat) (e : Event) : Event :=
  match envLookup env fid with
  | some acts => acts.foldl applyEffect e
  | none => e

/-- The `'all'` branch of `Event.trigger`: `for f in c: f(*args, **kwargs)`.
`c` here is the *live* set object (the dict copy in `trigger` is shallow and
this branch does not copy the set), so the loop iterates the current set
under `'all'` at each step, and — as CPython's set iterator does — raises
`RuntimeError` at the next step whenever the set changed size during the
iteration.  `n0` is the size when the iterator was created.  The `fuel`
parameter only bounds the recursion: each productive step requires
`i < n0` with `i` strictly increasing, so `n0 + 1` fuel (as supplied by
`processSelectors`) is always enough and the fuel-exhausted branch is
unreachable. -/
def iterAll (env : OpEnv) (a : List Value) (k : Kwargs) (n0 : Nat) :
    Nat → Nat → Event → List Invocation → TrigResult
  | 0, _, ev, log => ⟨ev, log, some PyErr.runtimeError⟩
  | fuel + 1, i, ev, log =>
    let cur := getSet ev Nargs.all
    if cur.length ≠ n0 then ⟨ev, log, some PyErr.runtimeError⟩
    else if h : i < cur.length then
      iterAll env a k n0 fuel (i + 1)
        (applyEffects env (cur.get ⟨i, h⟩).id ev)
        (log ++ [⟨cur.get ⟨i, h⟩, a, k⟩])
    else ⟨ev, log, none⟩

/-- The integer branch of `Event.trigger`: `for f in c.copy(): ...` — the
iteration runs over a snapshot of the selector's set taken when the selector
is processed; each step computes the positional arguments via
`_trigger_nargs` (which reads the live event's `arguments`) and invokes the
callback, whose reentrant effects are applied to the live event. -/
def iterNum (env : OpEnv) (a : List Value) (k : Kwargs) (n : Nat) :
    List Callback → Event → List Invocation → TrigResult
  | [], ev, log => ⟨ev, log, none⟩
  | f :: rest, ev, log =>
    match ev.triggerNargs f a k n with
    | .error e => ⟨ev, log, some e⟩
    | .ok callArgs =>
      iterNum env a k n rest (applyEffects env f.id ev) (log ++ [⟨f, callArgs, []⟩])

/-- The selector loop of `Event.trigger`: `for nargs, c in
self._connected.copy().iteritems()`.  The dict copy is shallow, so the llist
of selector keys is the snapshot taken at call start, while each selector's
set is read from the live event when that selector is processed.  An integer
selector first checks `len(args) + len(kwargs) < nargs` and raises the
insufficient-arguments `ValueError` before invoking any of its callbacks. -/
def processSelectors (env : OpEnv) (a : List Value) (k : Kwargs) :
    List Nargs → Event → List Invocation → TrigResult
  | [], ev, log => ⟨ev, log, none⟩
  | Nargs.all :: rest, ev, log =>
    let n0 := (getSet ev Nargs.all).length
    match iterAll env a k n0 (n0 + 1) 0 ev log with
    | ⟨ev1, log1, none⟩ => processSelectors env a k rest ev1 log1
    | r => r
  | Nargs.num n :: rest, ev, log =>
    if a.length + k.length < n then ⟨ev, log, some PyErr.valueErrorInsufficientArgs⟩
    else
      match iterNum env a k n (getSet ev (Nargs.num n)) ev log with
      | ⟨ev1, log1, none⟩ => processSelectors env a k rest ev1 log1
      | r => r

/-- `Event.trigger(*args, **kwargs)`: a no-op when suppressed; otherwise
process each selector of the key snapshot.  `env` supplies the reentrant
effects of the callbacks (an empty environment models effect-free
callbacks). -/
def Event.trigger (env : OpEnv) (e : Event) (a : List Value) (k : Kwargs) : TrigResult :=
  if e.suppressFlag then ⟨e, [], none⟩
  else processSelectors env a k (e.connected.map Prod.fst) e []

/-- The result of Python attribute access on an `Events` container. -/
inductive AttrResult where
  | reservedMember
  | event (eid : Nat)
  | raised (e : PyErr)
deriving DecidableEq, Repr

/-- First-match lookup in a `name -> event id` dictionary. -/
def nameLookup : List (String × Nat) → String → Option Nat
  | [], _ => none
  | (k, v) :: rest, s => if k = s then some v else nameLookup rest s

/-- Python attribute access on an `Events` container: a reserved member
(class attribute or ordinary instance attribute) is found by normal lookup;
only when that fails does `Events.__getattr__` run, returning
`self._events[name]` — the registered `Event` — or raising `KeyError` for an
unregistered name. -/
def Events.attrLookup (reserved : List String) (evdict : List (String × Nat))
    (name : String) : AttrResult :=
  if name ∈ reserved then .reservedMember
  else
    match nameLookup evdict name with
    | some e => .event e
    | none => .raised .keyError

/-- The global state the suppressor machinery acts on: `Event` objects by
identity, and `Events` containers by identity, each a `name -> event id`
dictionary in insertion order. -/
structure World where
  events : List (Nat × Event)
  containers : List (Nat × List (String × Nat))
deriving DecidableEq, Repr

/-- First-match lookup in a `Nat`-keyed dictionary. -/
def natLookup {α : Type} : List (Nat × α) → Nat → Option α
  | [], _ => none
  | (k, v) :: rest, n => if k = n then some v else natLookup rest n

/-- Dictionary write: update the first entry with the key, else append
(matching Python dict assignment). -/
def natStore {α : Type} : List (Nat × α) → Nat → α → List (Nat × α)
  | [], n, a => [(n, a)]
  | (k, v) :: rest, n, a => if k = n then (n, a) :: rest else (k, v) :: natStore rest n a

/-- The `Event` object with a given identity (a world is only consulted at
identities it holds; the default is never reached in the developments
below). -/
def World.getEvent (w : World) (eid : Nat) : Event :=
  (natLookup w.events eid).getD (Event.init "" none)

/-- Replacement of the `Event` object at an identity. -/
def World.setEvent (w : World) (eid : Nat) (e : Event) : World :=
  ⟨natStore w.events eid e, w.containers⟩

/-- The event ids registered in a container, in registration order
(`self._events.itervalues()`). -/
def containerEventIds (w : World) (cid : Nat) : List Nat :=
  ((natLookup w.containers cid).getD []).map Prod.snd

/-- The suppression flag of the event with a given identity. -/
def World.flagW (w : World) (eid : Nat) : Bool :=
  (w.getEvent eid).suppressFlag

/-- Whether a callback is registered under a selector on the event with a
given identity. -/
def World.memW (w : World) (eid : Nat) (sel : Nargs) (f : Callback) : Bool :=
  (w.getEvent eid).memUnder sel f

/-- An event with its suppression flag overwritten. -/
def Event.setSuppress (e : Event) (b : Bool) : Event :=
  { e with suppressFlag := b }

/-- Entry of `Events.suppress()`: walk the contained events in registration
order, recording `old[e] = e._suppress` in a dict keyed by event identity
(a later visit of the same event *overwrites* the saved value — by then the
flag is already `True`) and setting each flag.  Returns the saved dict and
the updated world. -/
def Events.suppressEnter (w : World) (cid : Nat) : List (Nat × Bool) × World :=
  (containerEventIds w cid).foldl
    (fun acc eid =>
      (natStore acc.1 eid (acc.2.getEvent eid).suppressFlag,
       acc.2.setEvent eid ((acc.2.getEvent eid).setSuppress true)))
    ([], w)

/-- Exit of `Events.suppress()` (the `finally` block): restore each saved
flag. -/
def Events.suppressExit (saved : List (Nat × Bool)) (w : World) : World :=
  saved.foldl (fun w2 p => w2.setEvent p.1 ((w2.getEvent p.1).setSuppress p.2)) w

/-- A candidate value passed to `EventSupressor.add`: an `Event`, an `Events`
container, a callable, a non-iterable non-target (e.g. an int), or an
iterable (tuple/list) of candidates.  An `Events` container counts as
iterable (it defines `__iter__`) but has no `__len__`. -/
inductive Cand where
  | ev (eid : Nat)
  | evs (cid : Nat)
  | fn (f : Callback)
  | other
  | iter (xs : List Cand)

/-- `EventSupressor._is_tuple_target`: an iterable of length two whose first
element is an `Event` or `Events` and whose second element is callable. -/
def isRtupleTarget : Cand → Bool
  | .iter [a, b] =>
    (match a with
     | .ev _ => true
     | .evs _ => true
     | _ => false) &&
    (match b with
     | .fn _ => true
     | _ => false)
  | _ => false

/-- `EventSupressor._is_target`: an `Event`, an `Events`, or a tuple
target. -/
def isRtarget : Cand → Bool
  | .ev _ => true
  | .evs _ => true
  | c => isRtupleTarget c

/-- A scoped-suppression handle built by `EventSupressor._add_single` (a
context manager that has been created but not entered). -/
inductive CM where
  | evSuppress (eid : Nat)
  | evsSuppress (cid : Nat)
  | scSuppress (eid : Nat) (f : Callback)
deriving DecidableEq, Repr

/-- `EventSupressor._add_single(target)`: a `(Event, callback)` pair gives
one `suppress_callback` handle; an `(Events, callback)` pair gives one
`suppress_callback` handle per event contained *now* (at add time); a bare
`Event` or `Events` gives its own `suppress()` handle. -/
def addSingle (w : World) : Cand → List CM
  | .iter [.ev eid, .fn f] => [.scSuppress eid f]
  | .iter [.evs cid, .fn f] => (containerEventIds w cid).map (fun eid => .scSuppress eid f)
  | .ev eid => [.evSuppress eid]
  | .evs cid => [.evsSuppress cid]
  | _ => []

/-- The unwrapping loop at the top of `EventSupressor.add`: `while
isinstance(to_suppress, Iterable) and len(to_suppress) == 1: to_suppress =
to_suppress[0]`.  An `Events` container is `Iterable` but `len()` on it
raises `TypeError`. -/
def flattenArgs : Cand → Except PyErr Cand
  | .iter [x] => flattenArgs x
  | .evs _ => .error .typeError
  | c => .ok c

/-- `EventSupressor.add(*to_suppress)`: unwrap singleton iterables; a single
resolved target is added directly; otherwise a non-empty iterable has each
*element* checked — valid targets are added, anything else is silently
skipped; an empty iterable or a non-iterable non-target raises
`ValueError("No viable suppression targets added!")`. -/
def EventSupressor.add (w : World) (cms : List CM) (args : List Cand) :
    Except PyErr (List CM) := do
  let t ← flattenArgs (.iter args)
  if isRtarget t then
    pure (cms ++ addSingle w t)
  else
    match t with
    | .iter xs =>
      if xs.isEmpty then .error .valueErrorNoTargets
      else pure (cms ++ (xs.filter isRtarget).foldl (fun acc x => acc ++ addSingle w x) [])
    | _ => .error .valueErrorNoTargets

/-- The per-handle data held across the `yield` once a handle has been
entered. -/
inductive Entered where
  | evS (eid : Nat) (old : Bool)
  | evsS (saved : List (Nat × Bool))
  | scS (eid : Nat) (f : Callback) (found : List Nargs)
deriving DecidableEq, Repr

/-- `cm.__enter__()` for each kind of handle. -/
def cmEnter (w : World) : CM → Entered × World
  | .evSuppress eid =>
    let (old, e1) := (w.getEvent eid).suppressEnter
    (.evS eid old, w.setEvent eid e1)
  | .evsSuppress cid =>
    let (saved, w1) := Events.suppressEnter w cid
    (.evsS saved, w1)
  | .scSuppress eid f =>
    let (found, e1) := (w.getEvent eid).suppressCallbackEnter f
    (.scS eid f found, w.setEvent eid e1)

/-- `cm.__exit__(None, None, None)` for each kind of entered handle. -/
def cmExit (w : World) : Entered → World
  | .evS eid old => w.setEvent eid ((w.getEvent eid).suppressExit old)
  | .evsS saved => Events.suppressExit saved w
  | .scS eid f found => w.setEvent eid ((w.getEvent eid).suppressCallbackExit f found)

/-- What the body of the `with es.suppress():` block does.  The claims below
concern bodies that may flip suppression flags (e.g. by nesting further
suppressions or triggering events) and may raise; rewiring of callbacks from
inside the scope is outside the restoration guarantee. -/
inductive BodyAct where
  | setFlag (eid : Nat) (b : Bool)
  | raiseErr (e : PyErr)
deriving DecidableEq, Repr

/-- Running the body of the `with` block: perform the actions in order,
stopping at the first raised exception. -/
def runBody : List BodyAct → World → World × Option PyErr
  | [], w => (w, none)
  | .setFlag eid b :: rest, w =>
    runBody rest (w.setEvent eid ((w.getEvent eid).setSuppress b))
  | .raiseErr e :: _, w => (w, some e)

/-- The entry loop of `EventSupressor.suppress`: enter each handle in
registration order, accumulating the successfully entered handles; a handle
whose generator was already consumed (`used = true`) raises `RuntimeError`
when re-entered, stopping the loop. -/
def enterChain (w : World) : List (CM × Bool) → List Entered × World × Option PyErr
  | [] => ([], w, none)
  | (cm, used) :: rest =>
    if used then ([], w, some .runtimeError)
    else
      let (ent, w1) := cmEnter w cm
      let (ents, w2, er) := enterChain w1 rest
      (ent :: ents, w2, er)

/-- The `finally` block of `EventSupressor.suppress`: exit the handles in the
given order (the caller passes the entered handles reversed). -/
def exitChain (ents : List Entered) (w : World) : World :=
  ents.foldl cmExit w

/-- `EventSupressor.suppress()` around a body: enter every handle in
registration order; when all entries succeed run the body; in every case
(entry failure, body exception, or normal completion) exit exactly the
successfully-entered handles in reverse order of entry, and propagate the
pending exception, swallowing nothing. -/
def EventSupressor.suppress (cms : List (CM × Bool)) (w : World) (body : List BodyAct) :
    World × Option PyErr :=
  match enterChain w cms with
  | (ents, w1, some e) => (exitChain ents.reverse w1, some e)
  | (ents, w1, none) =>
    let (w2, er) := runBody body w1
    (exitChain ents.reverse w2, er)

/-- The flag-suppression targets of a handle: the events whose `_suppress`
flag the handle saves and restores. -/
def cmFlagTargets (w : World) : CM → List Nat
  | .evSuppress eid => [eid]
  | .evsSuppress cid => containerEventIds w cid
  | .scSuppress _ _ => []

/-- Pure summary of the integer branch of `trigger` for effect-free
callbacks: the invocations produced by iterating one selector's set, and the
exception that stops the iteration, if any. -/
def runSet (e : Event) (a : List Value) (k : Kwargs) (n : Nat) :
    List Callback → List Invocation × Option PyErr
  | [] => ([], none)
  | f :: rest =>
    match e.triggerNargs f a k n with
    | .error er => ([], some er)
    | .ok ca =>
      let (l, er) := runSet e a k n rest
      (⟨f, ca, []⟩ :: l, er)

/-- Pure summary of the selector loop of `trigger` for effect-free
callbacks: the invocations produced per selector key, in order, stopping at
the first exception. -/
def runKeys (e : Event) (a : List Value) (k : Kwargs) :
    List Nargs → List Invocation × Option PyErr
  | [] => ([], none)
  | Nargs.all :: rest =>
    let l := (getSet e Nargs.all).map (fun f => (⟨f, a, k⟩ : Invocation))
    let (l2, er) := runKeys e a k rest
    (l ++ l2, er)
  | Nargs.num n :: rest =>
    if a.length + k.length < n then ([], some PyErr.valueErrorInsufficientArgs)
    else
      match runSet e a k n (getSet e (Nargs.num n)) with
      | (l1, some er) => (l1, some er)
      | (l1, none) =>
        let (l2, er) := runKeys e a k rest
        (l1 ++ l2, er)

/-- Modelled from the spec for the refinement comparison of claim C8 (the
code itself is `resolveNargs`): the arity selector the specification says
`connect(f, 'auto')` picks — `'all'` for variable parameters, otherwise the
declared parameter count *excluding* the implicit receiver parameter when
the callback is a bound method. -/
def autoSelectorSpec (f : Callback) : Nargs :=
  if f.varargs || f.keywords then .all
  else .num (if f.isMethod then f.args.length - 1 else f.args.length)

/-! Concrete fixtures used by the counterexamples and witnesses below. -/

/-- An effect-free callback declaring no parameters. -/
def cbF : Callback := ⟨0, [], false, false, false⟩

/-- A second effect-free callback declaring no parameters. -/
def cbG : Callback := ⟨1, [], false, false, false⟩

/-- A plain function declaring two parameters named `a` and `b`. -/
def cbAB : Callback := ⟨2, ["a", "b"], false, false, false⟩

/-- A bound method declaring `(self, x)`. -/
def cbMeth : Callback := ⟨4, ["self", "x"], false, false, true⟩

/-- An event with `cbF` and `cbG` connected under the `'all'` selector. -/
def evC2 : Event := ⟨"", none, [(Nargs.all, [cbF, cbG])], false, false⟩

/-- An effect environment in which invoking `cbF` disconnects `cbG` from the
event being triggered. -/
def envC2 : OpEnv := [(0, [EffAct.disc cbG])]

/-- An event with `cbAB` connected under the integer selector `2`. -/
def evC1 : Event := ⟨"", none, [(Nargs.num 2, [cbAB])], false, false⟩

/-- An empty world. -/
def wEmpty : World := ⟨[], []⟩

/-- An event with `cbF` connected under `'all'`. -/
def evWithF : Event := ⟨"", none, [(Nargs.all, [cbF])], false, false⟩

/-- A world whose container `10` holds only event `1` (events `1` and `2`
both exist and both have `cbF` connected). -/
def wC6add : World := ⟨[(1, evWithF), (2, evWithF)], [(10, [("a", 1)])]⟩

/-- The same world after event `2` was additionally registered in container
`10`. -/
def wC6later : World := ⟨[(1, evWithF), (2, evWithF)], [(10, [("a", 1), ("b", 2)])]⟩

/-! General lemmas about connection-set membership. -/

theorem mem_getSet_iff (e : Event) (sel : Nargs) (f : Callback) :
    f ∈ getSet e sel ↔ ∃ p ∈ e.connected, p.1 = sel ∧ f ∈ p.2 := by
  simp only [getSet, List.mem_flatten, List.mem_filterMap]
  constructor
  · rintro ⟨s, ⟨p, hp, hps⟩, hf⟩
    by_cases h : p.1 = sel
    · rw [if_pos h] at hps
      injection hps with hps
      exact ⟨p, hp, h, by rw [hps]; exact hf⟩
    · rw [if_neg h] at hps
      cases hps
  · rintro ⟨p, hp, hsel, hf⟩
    exact ⟨p.2, ⟨p, hp, by rw [if_pos hsel]⟩, hf⟩

theorem memUnder_connect_self (e : Event) (f : Callback) (na : NargsArg) :
    (e.connect f na).memUnder (resolveNargs f na) f = true := by
  simp only [Event.connect, Event.memUnder, decide_eq_true_iff]
  by_cases h : e.connected.any (fun p => p.1 = resolveNargs f na)
  · rw [if_pos h, mem_getSet_iff]
    rw [List.any_eq_true] at h
    obtain ⟨p, hp, hsel⟩ := h
    replace hsel : p.1 = resolveNargs f na := of_decide_eq_true hsel
    refine ⟨(p.1, addToSet f p.2), ?_, hsel, ?_⟩
    · simp only [List.mem_map]
      exact ⟨p, hp, by rw [if_pos hsel]⟩
    · by_cases hf : f ∈ p.2 <;> simp [addToSet, hf]
  · rw [if_neg h, mem_getSet_iff]
    exact ⟨(resolveNargs f na, [f]), by simp, rfl, by simp⟩

-- ===== claim theorems =====

/-- C10: deep-copying an `Event` yields a fresh default event: empty callback
dictionary, unsuppressed flag, empty docstring, no fixed argument signature,
and no signature-enforcing trigger wrapper — regardless of the original's
state. -/
theorem deepcopy_fresh (e : Event) :
    (e.deepcopy).connected = [] ∧ (e.deepcopy).suppressFlag = false ∧
    (e.deepcopy).doc = "" ∧ (e.deepcopy).arguments = none ∧
    (e.deepcopy).sigEnforced = false :=
  ⟨rfl, rfl, rfl, rfl, rfl⟩

/-- C9: attribute-style retrieval on an `Events` container of a name that is
not a reserved member returns the registered `Event` when the name is
registered, and raises the name-not-found (`KeyError`) error otherwise. -/
theorem attrLookup_spec (reserved : List String) (evdict : List (String × Nat))
    (name : String) (eid : Nat) (hres : name ∉ reserved) :
    (nameLookup evdict name = some eid →
      Events.attrLookup reserved evdict name = .event eid) ∧
    (nameLookup evdict name = none →
      Events.attrLookup reserved evdict name = .raised PyErr.keyError) := by
  unfold Events.attrLookup
  rw [if_neg hres]
  constructor <;> intro h <;> rw [h]

/-- Witness for C9 at a concrete container. -/
theorem attrLookup_spec_witness :
    Events.attrLookup ["suppress"] [("changed", 7)] "changed" = .event 7 :=
  (attrLookup_spec ["suppress"] [("changed", 7)] "changed" 7 (by decide)).1 rfl

/-- C8 counterexample: for the bound method `cbMeth` declaring `(self, x)`
(no variable parameters), `connect(cbMeth, 'auto')` registers it under the
integer selector `2` — `len(getargspec(f).args)` *includes* the receiver —
whereas the claim's receiver-excluding rule (`autoSelectorSpec`) yields `1`. -/
theorem connect_auto_method_counterexample :
    ((Event.init "" none).connect cbMeth .auto).connected =
      [(Nargs.num 2, [cbMeth])] ∧
    autoSelectorSpec cbMeth = Nargs.num 1 :=
  ⟨rfl, rfl⟩

/-- C8 (amended): `connect(f, 'auto')` registers `f` under `'all'` when `f`
declares variable positional or keyword parameters, and otherwise under the
integer selector equal to `f`'s full declared parameter count — including
the implicit receiver parameter when `f` is a bound method. -/
theorem connect_auto_selector (e : Event) (f : Callback) :
    ((f.varargs || f.keywords) = true →
      (e.connect f .auto).memUnder Nargs.all f = true) ∧
    ((f.varargs || f.keywords) = false →
      (e.connect f .auto).memUnder (Nargs.num f.args.length) f = true) := by
  have h := memUnder_connect_self e f .auto
  constructor <;> intro hv <;>
    simpa only [resolveNargs, hv, if_true, if_false] using h

/-- Witness for C8 at a concrete callback. -/
theorem connect_auto_selector_witness :
    ((Event.init "" none).connect cbMeth .auto).memUnder (Nargs.num 2) cbMeth = true :=
  (connect_auto_selector (Event.init "" none) cbMeth).2 (by decide)

/-- C2: evaluation of the code at the failing input.  Two effect-free-looking
callbacks `cbF`, `cbG` are connected under `'all'`; invoking `cbF`
disconnects `cbG` from the same event.  Because `trigger`'s
`self._connected.copy()` is a shallow copy and the `'all'` branch iterates
the set object itself, the disconnect mutates the set mid-iteration: only
`cbF` is invoked and the iteration raises `RuntimeError` — the claimed
call-start snapshot (under which `cbG` would still be invoked) does not
exist for the `'all'` selector. -/
theorem trigger_all_mutation_bug :
    Event.trigger envC2 evC2 [] [] =
      ⟨⟨"", none, [(Nargs.all, [cbF])], false, false⟩,
       [⟨cbF, [], []⟩], some PyErr.runtimeError⟩ := by
  rfl

/-- C1 counterexample: `cbAB` is connected under integer arity `2`;
`trigger` is called with no positional and two keyword arguments (so
`len(args) + len(kwargs) = 2 >= 2` and no error is raised), but the keyword
names `x`, `y` match neither event-declared names (none) nor the callback's
parameters `a`, `b`, so the backfill produces nothing and the callback is
invoked with `0` positional arguments, not the claimed `2`. -/
theorem trigger_nargs_counterexample :
    Event.trigger [] evC1 [] [("x", 5), ("y", 6)] =
      ⟨evC1, [⟨cbAB, [], []⟩], none⟩ ∧
    ¬([] : List Value).length = 2 := by
  exact ⟨rfl, by decide⟩

/-- C5 counterexample: `add(1, 2)` — two arguments, neither a recognized
suppression target — raises nothing: the per-element loop silently skips
invalid elements of a non-empty iterable, so no error is reported and no
target is added. -/
theorem add_no_error_counterexample :
    EventSupressor.add wEmpty [] [Cand.other, Cand.other] = .ok [] := by
  rfl

/-- C5 (amended): `EventSupressor.add` raises the invalid-suppression-target
error only when the (singleton-unwrapped) argument is an empty iterable or a
single non-iterable non-target; a non-empty iterable none of whose elements
is a recognized target is accepted silently, adding nothing. -/
theorem add_invalid_targets (w : World) (cms : List CM) (xs : List Cand)
    (hlen : 2 ≤ xs.length) (hnt : ∀ x ∈ xs, isRtarget x = false) :
    EventSupressor.add w cms xs = .ok cms ∧
    EventSupressor.add w cms [Cand.other] = .error PyErr.valueErrorNoTargets ∧
    EventSupressor.add w cms [] = .error PyErr.valueErrorNoTargets := by
  refine ⟨?_, rfl, rfl⟩
  have hflat : flattenArgs (Cand.iter xs) = .ok (Cand.iter xs) := by
    match xs, hlen with
    | x :: y :: t, _ => rfl
  have hnotpair : isRtupleTarget (Cand.iter xs) = false := by
    match xs, hlen with
    | x :: y :: t, hlen =>
      cases t with
      | cons _ _ => rfl
      | nil =>
        have hx := hnt x (by simp)
        cases x <;> simp_all [isRtarget, isRtupleTarget]
  have hnotarget : isRtarget (Cand.iter xs) = false := by
    simpa [isRtarget] using hnotpair
  have hfilter : xs.filter isRtarget = [] :=
    List.filter_eq_nil_iff.mpr (fun x hx => by simp [hnt x hx])
  have hne : xs.isEmpty = false := by
    match xs, hlen with
    | x :: y :: t, _ => rfl
  simp [EventSupressor.add, hflat, hnotarget, hfilter, hne, Except.bind, Bind.bind,
    pure, Except.pure]

/-- Witness for the C5 amended theorem: a callable plus an int, neither a
valid target — accepted without error, adding nothing. -/
theorem add_invalid_targets_witness :
    EventSupressor.add wEmpty [] [Cand.fn cbF, Cand.other] = .ok [] :=
  (add_invalid_targets wEmpty [] [Cand.fn cbF, Cand.other] (by decide)
    (by intro x hx; fin_cases hx <;> rfl)).1

/-- C6 counterexample: container `10` holds only event `1` when the
`(Events, callback)` target is added, so `add` builds one
`suppress_callback` handle for event `1` only; event `2`, registered in the
container afterwards, is untouched — entering the suppressor in the later
world leaves `cbF` connected on event `2` (while it is disconnected from
event `1`). -/
theorem evs_pair_add_time_counterexample :
    EventSupressor.add wC6add [] [Cand.iter [Cand.evs 10, Cand.fn cbF]] =
      .ok [CM.scSuppress 1 cbF] ∧
    (enterChain wC6later [(CM.scSuppress 1 cbF, false)]).2.1.memW 2 Nargs.all cbF = true ∧
    (enterChain wC6later [(CM.scSuppress 1 cbF, false)]).2.1.memW 1 Nargs.all cbF = false := by
  refine ⟨rfl, by decide, by decide⟩

/-- C6 (amended): the `suppress_callback` scopes for an `(Events, callback)`
target are built by `add()` itself, one per event contained in the container
at *add* time; events registered in the container after the `add()` call are
not covered. -/
theorem evs_pair_built_at_add (w : World) (cms : List CM) (cid : Nat) (f : Callback) :
    EventSupressor.add w cms [Cand.iter [Cand.evs cid, Cand.fn f]] =
      .ok (cms ++ (containerEventIds w cid).map (fun eid => CM.scSuppress eid f)) := by
  rfl

/-- C3: entering `Event.suppress()` sets the suppression flag; any `trigger`
call on a state whose flag is set (in particular any call strictly inside
the scope) invokes no callback and raises nothing; exiting restores the flag
to exactly its pre-entry value whatever happened to the event meanwhile (the
restore runs in a `finally`, i.e. on the error path too); and for an event
whose flag was already set, entering and exiting one nested scope leaves it
set. -/
theorem suppress_scope (ev : Event) (env : OpEnv) (a : List Value) (k : Kwargs) :
    (ev.suppressEnter).2.suppressFlag = true ∧
    (∀ ev2 : Event, ev2.suppressFlag = true →
      Event.trigger env ev2 a k = ⟨ev2, [], none⟩) ∧
    (∀ ev2 : Event,
      (Event.suppressExit (ev.suppressEnter).1 ev2).suppressFlag = ev.suppressFlag) ∧
    (ev.suppressFlag = true →
      (Event.suppressExit (ev.suppressEnter).1 (ev.suppressEnter).2).suppressFlag
        = true) := by
  refine ⟨rfl, ?_, fun _ => rfl, fun h => h⟩
  intro ev2 h
  simp [Event.trigger, h]

/-- Witness for C3: a suppressed-scope trigger on a concrete event invokes
nothing. -/
theorem suppress_scope_witness :
    Event.trigger envC2 (evC2.suppressEnter).2 [] [] =
      ⟨(evC2.suppressEnter).2, [], none⟩ :=
  (suppress_scope evC2 envC2 [] []).2.1 (evC2.suppressEnter).2 rfl

/-! Lemmas on the effect-free behaviour of `trigger`. -/

theorem applyEffects_nil (fid : Nat) (e : Event) : applyEffects [] fid e = e := rfl

theorem triggerNargs_nonMethod (e : Event) (f : Callback) (a : List Value)
    (k : Kwargs) (n : Nat) (hm : f.isMethod = false) :
    ∃ l, e.triggerNargs f a k n = .ok l ∧ l.length ≤ n ∧
      (n ≤ a.length → l = a.take n) := by
  unfold Event.triggerNargs
  by_cases h : a.length < n
  · rw [if_pos h]
    have hv : n ≤ a.length → False := fun hn => absurd h (not_lt.mpr hn)
    by_cases h2 : (eventFill e n a k).1.length < n
    · rw [if_pos h2]
      have hc : candidatesOf f (eventFill e n a k).1.length =
          .ok (f.args.drop (eventFill e n a k).1.length) := by
        unfold candidatesOf
        rw [if_neg (by simp [hm])]
      rw [hc]
      exact ⟨_, rfl, by simp, fun hn => (hv hn).elim⟩
    · rw [if_neg h2]
      exact ⟨_, rfl, by simp, fun hn => (hv hn).elim⟩
  · rw [if_neg h]
    exact ⟨a.take n, rfl, by simp, fun _ => rfl⟩

theorem triggerNargs_length_le (e : Event) (f : Callback) (a : List Value)
    (k : Kwargs) (n : Nat) (l : List Value) (h : e.triggerNargs f a k n = .ok l) :
    l.length ≤ n ∧ (n ≤ a.length → l = a.take n) := by
  unfold Event.triggerNargs at h
  by_cases h1 : a.length < n
  · rw [if_pos h1] at h
    have hv : n ≤ a.length → False := fun hn => absurd h1 (not_lt.mpr hn)
    by_cases h2 : (eventFill e n a k).1.length < n
    · rw [if_pos h2] at h
      cases hc : candidatesOf f (eventFill e n a k).1.length with
      | error er => rw [hc] at h; cases h
      | ok cands =>
        rw [hc] at h
        injection h with h
        exact ⟨by simp [← h], fun hn => (hv hn).elim⟩
    · rw [if_neg h2] at h
      injection h with h
      exact ⟨by simp [← h], fun hn => (hv hn).elim⟩
  · rw [if_neg h1] at h
    injection h with h
    exact ⟨by simp [← h], fun _ => h.symm⟩

/-- `_trigger_nargs` reads the event only through its `arguments` field. -/
theorem triggerNargs_arguments_eq (e1 e2 : Event) (harg : e1.arguments = e2.arguments)
    (f : Callback) (a : List Value) (k : Kwargs) (n : Nat) :
    e1.triggerNargs f a k n = e2.triggerNargs f a k n := by
  unfold Event.triggerNargs eventFill
  rw [harg]

theorem runSet_nonMethod (e : Event) (a : List Value) (k : Kwargs) (n : Nat)
    (S : List Callback) (hnm : ∀ g ∈ S, g.isMethod = false) :
    (runSet e a k n S).2 = none ∧
    (∀ g ∈ S, ∃ inv ∈ (runSet e a k n S).1, inv.cb = g) ∧
    (∀ inv ∈ (runSet e a k n S).1,
      inv.posArgs.length ≤ n ∧ (n ≤ a.length → inv.posArgs = a.take n)) := by
  induction S with
  | nil => simp [runSet]
  | cons g rest ih =>
    obtain ⟨l, hok, hlen, htake⟩ :=
      triggerNargs_nonMethod e g a k n (hnm g (by simp))
    obtain ⟨ih1, ih2, ih3⟩ := ih (fun g2 hg2 => hnm g2 (by simp [hg2]))
    refine ⟨by simp [runSet, hok, ih1], ?_, ?_⟩
    · intro g2 hg2
      rcases List.mem_cons.mp hg2 with hg2 | hg2
      · exact ⟨⟨g, l, []⟩, by simp [runSet, hok], hg2.symm⟩
      · obtain ⟨inv, hinv, hcb⟩ := ih2 g2 hg2
        exact ⟨inv, by simp [runSet, hok, hinv], hcb⟩
    · intro inv hinv
      rw [show (runSet e a k n (g :: rest)).1 = ⟨g, l, []⟩ :: (runSet e a k n rest).1
          from by simp [runSet, hok]] at hinv
      rcases List.mem_cons.mp hinv with hinv | hinv
      · subst hinv
        exact ⟨hlen, htake⟩
      · exact ih3 inv hinv

theorem runSet_cb_mem (e : Event) (a : List Value) (k : Kwargs) (n : Nat) :
    ∀ (S : List Callback) (inv : Invocation), inv ∈ (runSet e a k n S).1 → inv.cb ∈ S := by
  intro S
  induction S with
  | nil => simp [runSet]
  | cons g rest ih =>
    intro inv hinv
    unfold runSet at hinv
    cases hok : e.triggerNargs g a k n with
    | error er => rw [hok] at hinv; simp at hinv
    | ok l =>
      rw [hok] at hinv
      simp only at hinv
      rcases List.mem_cons.mp hinv with hinv | hinv
      · subst hinv; simp
      · exact List.mem_cons_of_mem g (ih inv hinv)

theorem iterNum_noEffects (a : List Value) (k : Kwargs) (n : Nat) (ev : Event) :
    ∀ (S : List Callback) (log : List Invocation),
    iterNum [] a k n S ev log =
      ⟨ev, log ++ (runSet ev a k n S).1, (runSet ev a k n S).2⟩ := by
  intro S
  induction S with
  | nil => intro log; simp [iterNum, runSet]
  | cons f rest ih =>
    intro log
    unfold iterNum runSet
    cases hok : ev.triggerNargs f a k n with
    | error er => simp
    | ok ca => simp [applyEffects_nil, ih, List.append_assoc]

theorem iterAll_noEffects (a : List Value) (k : Kwargs) (ev : Event) :
    ∀ (fuel i : Nat) (log : List Invocation),
    (getSet ev Nargs.all).length - i < fuel →
    iterAll [] a k (getSet ev Nargs.all).length fuel i ev log =
      ⟨ev, log ++ ((getSet ev Nargs.all).drop i).map (fun f => ⟨f, a, k⟩), none⟩ := by
  intro fuel
  induction fuel with
  | zero => intro i log h; omega
  | succ fuel ih =>
    intro i log h
    unfold iterAll
    rw [if_neg (by simp)]
    by_cases hi : i < (getSet ev Nargs.all).length
    · rw [dif_pos hi, applyEffects_nil, ih (i + 1) _ (by omega)]
      congr 1
      rw [List.drop_eq_getElem_cons hi, List.map_cons]
      simp [List.get_eq_getElem, List.append_assoc]
    · rw [dif_neg hi, List.drop_eq_nil_of_le (by omega)]
      simp

theorem processSelectors_noEffects (a : List Value) (k : Kwargs) (ev : Event) :
    ∀ (keys : List Nargs) (log : List Invocation),
    processSelectors [] a k keys ev log =
      ⟨ev, log ++ (runKeys ev a k keys).1, (runKeys ev a k keys).2⟩ := by
  intro keys
  induction keys with
  | nil => intro log; simp [processSelectors, runKeys]
  | cons sel rest ih =>
    intro log
    cases sel with
    | all =>
      rw [processSelectors, iterAll_noEffects a k ev _ 0 log (by omega)]
      simp only [List.drop_zero]
      rw [ih]
      simp [runKeys, List.append_assoc]
    | num n =>
      by_cases hguard : a.length + k.length < n
      · simp [processSelectors, runKeys, hguard]
      · rw [processSelectors, if_neg hguard,
          iterNum_noEffects a k n ev (getSet ev (Nargs.num n)) log]
        unfold runKeys
        rw [if_neg hguard]
        rcases hrs : runSet ev a k n (getSet ev (Nargs.num n)) with ⟨l1, er2⟩
        cases er2 with
        | some er => simp
        | none =>
          simp only []
          rw [ih]
          simp [List.append_assoc]

/-- Effect-free summary of `Event.trigger`: with no reentrant effects the
final state is unchanged and the invocation log and outcome are those of
`runKeys` over the selector-key snapshot. -/
theorem trigger_noEffects (ev : Event) (a : List Value) (k : Kwargs)
    (hs : ev.suppressFlag = false) :
    Event.trigger [] ev a k =
      ⟨ev, (runKeys ev a k (ev.connected.map Prod.fst)).1,
       (runKeys ev a k (ev.connected.map Prod.fst)).2⟩ := by
  rw [Event.trigger, if_neg (by simp [hs]),
    processSelectors_noEffects a k ev (ev.connected.map Prod.fst) []]
  simp

/-- C1 (amended): for an event with effect-free non-method callbacks
connected under integer arity `n` and an unsuppressed flag: triggering with
fewer than `n` total (positional + keyword) arguments raises the
insufficient-arguments error without invoking any of them; triggering with
at least `n` total arguments raises nothing and invokes each connected
callback with *at most* `n` positional arguments — exactly `n` whenever at
least `n` positional arguments are supplied, but possibly fewer when the
keyword backfill finds no matching names. -/
theorem trigger_integer_arity (ev : Event) (n : Nat) (fs : List Callback)
    (f : Callback) (a : List Value) (k : Kwargs)
    (hc : ev.connected = [(Nargs.num n, fs)]) (hs : ev.suppressFlag = false)
    (hf : f ∈ fs) (hnm : ∀ g ∈ fs, g.isMethod = false) :
    (a.length + k.length < n →
      Event.trigger [] ev a k = ⟨ev, [], some PyErr.valueErrorInsufficientArgs⟩) ∧
    (n ≤ a.length + k.length →
      (Event.trigger [] ev a k).err = none ∧
      (∃ inv ∈ (Event.trigger [] ev a k).log, inv.cb = f) ∧
      (∀ inv ∈ (Event.trigger [] ev a k).log,
        inv.posArgs.length ≤ n ∧ (n ≤ a.length → inv.posArgs = a.take n))) := by
  have hgs : getSet ev (Nargs.num n) = fs := by simp [getSet, hc]
  have hkeys : ev.connected.map Prod.fst = [Nargs.num n] := by simp [hc]
  rw [trigger_noEffects ev a k hs, hkeys]
  constructor
  · intro hlt
    unfold runKeys
    rw [if_pos hlt]
  · intro hge
    obtain ⟨h1, h2, h3⟩ := runSet_nonMethod ev a k n fs hnm
    unfold runKeys
    rw [if_neg (by omega), hgs]
    rcases hrs : runSet ev a k n fs with ⟨l1, er2⟩
    rw [hrs] at h1 h2 h3
    simp only at h1
    subst h1
    refine ⟨rfl, ?_, ?_⟩
    · obtain ⟨inv, hinv, hcb⟩ := h2 f hf
      exact ⟨inv, by simpa [runKeys] using hinv, hcb⟩
    · intro inv hinv
      exact h3 inv (by simpa [runKeys] using hinv)

/-- Witness for the C1 amended theorem: one zero-parameter callback under
arity `1`, triggered with one positional argument. -/
theorem trigger_integer_arity_witness :
    (Event.trigger [] ⟨"", none, [(Nargs.num 1, [cbF])], false, false⟩ [7] []).err
      = none :=
  ((trigger_integer_arity ⟨"", none, [(Nargs.num 1, [cbF])], false, false⟩
    1 [cbF] cbF [7] [] rfl rfl (by decide)
    (by intro g hg; fin_cases hg; rfl)).2 (by decide)).1

/-! Membership lemmas for connect, disconnect and suppress_callback. -/

theorem resolve_ofNargs (f : Callback) (sel : Nargs) :
    resolveNargs f (ofNargs sel) = sel := by
  cases sel <;> rfl

theorem mem_addToSet (g f : Callback) (s : List Callback) :
    g ∈ addToSet f s ↔ g ∈ s ∨ g = f := by
  by_cases hf : f ∈ s
  · simp only [addToSet, if_pos hf]
    constructor
    · exact Or.inl
    · rintro (h | h)
      · exact h
      · exact h ▸ hf
  · simp [addToSet, if_neg hf]

theorem mem_getSet_connect (e : Event) (f g : Callback) (na : NargsArg) (sel : Nargs) :
    g ∈ getSet (e.connect f na) sel ↔
      g ∈ getSet e sel ∨ (g = f ∧ sel = resolveNargs f na) := by
  simp only [Event.connect]
  by_cases h : e.connected.any (fun p => p.1 = resolveNargs f na)
  · rw [if_pos h, mem_getSet_iff, mem_getSet_iff]
    constructor
    · rintro ⟨p2, hp2, hsel, hg⟩
      rw [List.mem_map] at hp2
      obtain ⟨p, hp, hup⟩ := hp2
      by_cases hps : p.1 = resolveNargs f na
      · rw [if_pos hps] at hup
        subst hup
        simp only at hsel hg
        rcases (mem_addToSet g f p.2).mp hg with hg | hg
        · exact Or.inl ⟨p, hp, hsel, hg⟩
        · exact Or.inr ⟨hg, by rw [← hsel]; exact hps⟩
      · rw [if_neg hps] at hup
        subst hup
        exact Or.inl ⟨p, hp, hsel, hg⟩
    · rintro (⟨p, hp, hsel, hg⟩ | ⟨hgf, hseleq⟩)
      · by_cases hps : p.1 = resolveNargs f na
        · refine ⟨(p.1, addToSet f p.2), ?_, hsel,
            (mem_addToSet g f p.2).mpr (Or.inl hg)⟩
          rw [List.mem_map]
          exact ⟨p, hp, by rw [if_pos hps]⟩
        · refine ⟨p, ?_, hsel, hg⟩
          rw [List.mem_map]
          exact ⟨p, hp, by rw [if_neg hps]⟩
      · rw [List.any_eq_true] at h
        obtain ⟨p, hp, hps⟩ := h
        replace hps : p.1 = resolveNargs f na := of_decide_eq_true hps
        refine ⟨(p.1, addToSet f p.2), ?_, by rw [hps, ← hseleq],
          (mem_addToSet g f p.2).mpr (Or.inr hgf)⟩
        rw [List.mem_map]
        exact ⟨p, hp, by rw [if_pos hps]⟩
  · rw [if_neg h, mem_getSet_iff, mem_getSet_iff]
    constructor
    · rintro ⟨p, hp, hsel, hg⟩
      rcases List.mem_append.mp hp with hp | hp
      · exact Or.inl ⟨p, hp, hsel, hg⟩
      · simp only [List.mem_singleton] at hp
        subst hp
        simp only [List.mem_singleton] at hg
        exact Or.inr ⟨hg, hsel.symm⟩
    · rintro (⟨p, hp, hsel, hg⟩ | ⟨hgf, hseleq⟩)
      · exact ⟨p, List.mem_append.mpr (Or.inl hp), hsel, hg⟩
      · exact ⟨(resolveNargs f na, [f]), List.mem_append.mpr (Or.inr (by simp)),
          hseleq.symm, by simp [hgf]⟩

theorem getSet_disconnect (e : Event) (f : Callback) (sel : Nargs) :
    getSet (e.disconnect f) sel = (getSet e sel).filter (fun g => g ≠ f) := by
  unfold getSet Event.disconnect
  rw [List.filterMap_map, List.filter_flatten, List.map_filterMap]
  congr 1
  congr 1
  funext p
  by_cases h : p.1 = sel <;> simp [h]

theorem mem_getSet_disconnect (e : Event) (f g : Callback) (sel : Nargs) :
    g ∈ getSet (e.disconnect f) sel ↔ g ∈ getSet e sel ∧ g ≠ f := by
  rw [getSet_disconnect]
  simp [List.mem_filter]

theorem mem_scFound (e : Event) (f : Callback) (sel : Nargs) :
    sel ∈ e.scFound f ↔ f ∈ getSet e sel := by
  rw [mem_getSet_iff]
  simp only [Event.scFound, List.mem_map, List.mem_filter]
  constructor
  · rintro ⟨p, ⟨hp, hc⟩, hsel⟩
    exact ⟨p, hp, hsel, by simpa using hc⟩
  · rintro ⟨p, hp, hsel, hf⟩
    exact ⟨p, ⟨hp, by simpa using hf⟩, hsel⟩

theorem scExit_cons (e : Event) (f : Callback) (s : Nargs) (t : List Nargs) :
    e.suppressCallbackExit f (s :: t) =
      (e.connect f (ofNargs s)).suppressCallbackExit f t := rfl

theorem mem_getSet_scExit (f : Callback) :
    ∀ (found : List Nargs) (e : Event) (g : Callback) (sel : Nargs),
    g ∈ getSet (e.suppressCallbackExit f found) sel ↔
      g ∈ getSet e sel ∨ (g = f ∧ sel ∈ found) := by
  intro found
  induction found with
  | nil => intro e g sel; simp [Event.suppressCallbackExit]
  | cons s t ih =>
    intro e g sel
    rw [scExit_cons, ih, mem_getSet_connect, resolve_ofNargs]
    constructor
    · rintro ((h | ⟨hgf, hsel⟩) | ⟨hgf, hmem⟩)
      · exact Or.inl h
      · exact Or.inr ⟨hgf, by simp [hsel]⟩
      · exact Or.inr ⟨hgf, by simp [hmem]⟩
    · rintro (h | ⟨hgf, hmem⟩)
      · exact Or.inl (Or.inl h)
      · rcases List.mem_cons.mp hmem with h | h
        · exact Or.inl (Or.inr ⟨hgf, h⟩)
        · exact Or.inr ⟨hgf, h⟩

theorem connect_suppressFlag (e : Event) (f : Callback) (na : NargsArg) :
    (e.connect f na).suppressFlag = e.suppressFlag := by
  simp only [Event.connect]
  split <;> rfl

theorem connect_arguments (e : Event) (f : Callback) (na : NargsArg) :
    (e.connect f na).arguments = e.arguments := by
  simp only [Event.connect]
  split <;> rfl

theorem scExit_suppressFlag (f : Callback) :
    ∀ (found : List Nargs) (e : Event),
    (e.suppressCallbackExit f found).suppressFlag = e.suppressFlag := by
  intro found
  induction found with
  | nil => intro e; rfl
  | cons s t ih =>
    intro e
    rw [scExit_cons, ih, connect_suppressFlag]

theorem disconnect_keys (e : Event) (f : Callback) :
    (e.disconnect f).connected.map Prod.fst = e.connected.map Prod.fst := by
  simp [Event.disconnect, List.map_map]

theorem runSet_congr (e1 e2 : Event) (harg : e1.arguments = e2.arguments)
    (a : List Value) (k : Kwargs) (n : Nat) :
    ∀ S : List Callback, runSet e1 a k n S = runSet e2 a k n S := by
  intro S
  induction S with
  | nil => rfl
  | cons g t ih =>
    unfold runSet
    rw [triggerNargs_arguments_eq e1 e2 harg g a k n, ih]

theorem runSet_filter (e : Event) (a : List Value) (k : Kwargs) (n : Nat)
    (f : Callback) (hm : f.isMethod = false) :
    ∀ S : List Callback,
    runSet e a k n (S.filter (fun g => g ≠ f)) =
      ((runSet e a k n S).1.filter (fun inv => inv.cb ≠ f),
       (runSet e a k n S).2) := by
  intro S
  induction S with
  | nil => rfl
  | cons g t ih =>
    by_cases hg : g = f
    · subst hg
      obtain ⟨l, hok, _, _⟩ := triggerNargs_nonMethod e g a k n hm
      simp only [ne_eq, decide_not] at ih
      simp [runSet, hok, ih]
    · simp only [ne_eq, decide_not] at ih
      cases hok : e.triggerNargs g a k n with
      | error er => simp [runSet, hg, hok]
      | ok ca => simp [runSet, hg, hok, ih]

theorem map_invOf_filter (a : List Value) (k : Kwargs) (f : Callback) :
    ∀ S : List Callback,
    (S.filter (fun g => g ≠ f)).map (fun g => (⟨g, a, k⟩ : Invocation)) =
      (S.map (fun g => (⟨g, a, k⟩ : Invocation))).filter
        (fun inv => inv.cb ≠ f) := by
  intro S
  induction S with
  | nil => rfl
  | cons g t ih =>
    simp only [ne_eq, decide_not] at ih
    by_cases hg : g = f <;> simp [hg, ih]

theorem runKeys_disconnect (e : Event) (a : List Value) (k : Kwargs)
    (f : Callback) (hm : f.isMethod = false) :
    ∀ keys : List Nargs,
    runKeys (e.disconnect f) a k keys =
      ((runKeys e a k keys).1.filter (fun inv => inv.cb ≠ f),
       (runKeys e a k keys).2) := by
  intro keys
  induction keys with
  | nil => rfl
  | cons sel rest ih =>
    cases sel with
    | all =>
      unfold runKeys
      rw [getSet_disconnect, map_invOf_filter, ih]
      simp [List.filter_append]
    | num n =>
      unfold runKeys
      by_cases hguard : a.length + k.length < n
      · simp [hguard]
      · rw [if_neg hguard, if_neg hguard, getSet_disconnect,
          runSet_congr (e.disconnect f) e rfl a k n, runSet_filter e a k n f hm]
        rcases hrs : runSet e a k n (getSet e (Nargs.num n)) with ⟨l1, er2⟩
        cases er2 with
        | some er => simp
        | none =>
          simp only [ne_eq, decide_not] at ih
          simp [ih, List.filter_append]

theorem runKeys_cb_mem (e : Event) (a : List Value) (k : Kwargs) :
    ∀ (keys : List Nargs) (inv : Invocation), inv ∈ (runKeys e a k keys).1 →
      ∃ sel, inv.cb ∈ getSet e sel := by
  intro keys
  induction keys with
  | nil => simp [runKeys]
  | cons sel rest ih =>
    intro inv hinv
    cases sel with
    | all =>
      unfold runKeys at hinv
      simp only [List.mem_append] at hinv
      rcases hinv with hinv | hinv
      · rw [List.mem_map] at hinv
        obtain ⟨g, hg, hgi⟩ := hinv
        exact ⟨Nargs.all, by rw [← hgi]; exact hg⟩
      · exact ih inv hinv
    | num n =>
      unfold runKeys at hinv
      by_cases hguard : a.length + k.length < n
      · rw [if_pos hguard] at hinv
        simp at hinv
      · rw [if_neg hguard] at hinv
        rcases hrs : runSet e a k n (getSet e (Nargs.num n)) with ⟨l1, er2⟩
        rw [hrs] at hinv
        have hl1 : ∀ inv2 ∈ l1, inv2.cb ∈ getSet e (Nargs.num n) := by
          intro inv2 hinv2
          have := runSet_cb_mem e a k n (getSet e (Nargs.num n)) inv2
          rw [hrs] at this
          exact this hinv2
        cases er2 with
        | some er =>
          simp only at hinv
          exact ⟨Nargs.num n, hl1 inv hinv⟩
        | none =>
          simp only [List.mem_append] at hinv
          rcases hinv with hinv | hinv
          · exact ⟨Nargs.num n, hl1 inv hinv⟩
          · exact ih inv hinv

/-- C4: `Event.suppress_callback(f)` is a round trip on the connection
state: after the scope exits (the reconnect runs in a `finally`, so also on
the error path) `f` is registered under exactly the arity selectors it held
before entry; inside the scope `f` is never invoked by `trigger` while
every other connected callback is invoked exactly as it would have been
without the scope (same invocations, same outcome); and when `f` was not
connected the scope changes nothing.  (Stated for effect-free callbacks;
`f` non-method so that a trigger on the unscoped event cannot abort inside
`f` itself.) -/
theorem suppress_callback_scope (ev : Event) (f : Callback) (a : List Value)
    (k : Kwargs) (hm : f.isMethod = false) :
    (∀ sel, (Event.suppressCallbackExit (ev.suppressCallbackEnter f).2 f
        (ev.suppressCallbackEnter f).1).memUnder sel f = ev.memUnder sel f) ∧
    (∀ inv ∈ (Event.trigger [] (ev.suppressCallbackEnter f).2 a k).log,
      inv.cb ≠ f) ∧
    ((Event.trigger [] (ev.suppressCallbackEnter f).2 a k).log =
        (Event.trigger [] ev a k).log.filter (fun inv => inv.cb ≠ f)) ∧
    ((Event.trigger [] (ev.suppressCallbackEnter f).2 a k).err =
        (Event.trigger [] ev a k).err) ∧
    (ev.scFound f = [] → ev.suppressCallbackEnter f = ([], ev)) := by
  by_cases hf0 : ev.scFound f = []
  · have hsc : ev.suppressCallbackEnter f = ([], ev) := by
      simp [Event.suppressCallbackEnter, hf0]
    have hnotmem : ∀ sel, f ∉ getSet ev sel := by
      intro sel hmem
      have h2 := (mem_scFound ev f sel).mpr hmem
      rw [hf0] at h2
      simp at h2
    have hnof : ∀ inv ∈ (Event.trigger [] ev a k).log, inv.cb ≠ f := by
      by_cases hs : ev.suppressFlag = true
      · intro inv hinv
        rw [Event.trigger, if_pos (by simp [hs])] at hinv
        simp at hinv
      · rw [trigger_noEffects ev a k (by simpa using hs)]
        intro inv hinv
        obtain ⟨sel, hmem⟩ := runKeys_cb_mem ev a k _ inv hinv
        intro hcb
        rw [hcb] at hmem
        exact hnotmem sel hmem
    refine ⟨?_, ?_, ?_, ?_, fun _ => hsc⟩
    · intro sel
      simp only [hsc, Event.suppressCallbackExit, List.foldl_nil]
    · simp only [hsc]
      exact hnof
    · simp only [hsc]
      exact (List.filter_eq_self.mpr
        (fun inv hinv => by simpa using hnof inv hinv)).symm
    · simp only [hsc]
  · have hsc : ev.suppressCallbackEnter f = (ev.scFound f, ev.disconnect f) := by
      have he : (ev.scFound f).isEmpty = false := by
        cases h : ev.scFound f with
        | nil => exact absurd h hf0
        | cons x t => rfl
      simp [Event.suppressCallbackEnter, he]
    have hflag : (ev.disconnect f).suppressFlag = ev.suppressFlag := rfl
    refine ⟨?_, ?_, ?_, ?_, fun h0 => absurd h0 hf0⟩
    · intro sel
      simp only [hsc, Event.memUnder]
      rw [decide_eq_decide, mem_getSet_scExit, mem_getSet_disconnect, mem_scFound]
      constructor
      · rintro (⟨_, hne⟩ | ⟨_, hmem⟩)
        · exact absurd rfl hne
        · exact hmem
      · intro hmem
        exact Or.inr ⟨rfl, hmem⟩
    · by_cases hs : ev.suppressFlag = true
      · intro inv hinv
        simp only [hsc] at hinv
        rw [Event.trigger, if_pos (by simp [hflag, hs])] at hinv
        simp at hinv
      · simp only [hsc]
        rw [trigger_noEffects (ev.disconnect f) a k (by simpa [hflag] using hs)]
        intro inv hinv
        obtain ⟨sel, hmem⟩ := runKeys_cb_mem _ a k _ inv hinv
        rw [mem_getSet_disconnect] at hmem
        exact hmem.2
    · by_cases hs : ev.suppressFlag = true
      · simp [hsc, Event.trigger, hflag, hs]
      · simp only [hsc]
        rw [trigger_noEffects (ev.disconnect f) a k (by simpa [hflag] using hs),
          trigger_noEffects ev a k (by simpa using hs), disconnect_keys,
          runKeys_disconnect ev a k f hm]
    · by_cases hs : ev.suppressFlag = true
      · simp [hsc, Event.trigger, hflag, hs]
      · simp only [hsc]
        rw [trigger_noEffects (ev.disconnect f) a k (by simpa [hflag] using hs),
          trigger_noEffects ev a k (by simpa using hs), disconnect_keys,
          runKeys_disconnect ev a k f hm]

/-- Witness for C4 on a concrete event: with `cbF` and `cbG` under `'all'`,
the scoped trigger invokes exactly the non-suppressed callback `cbG`. -/
theorem suppress_callback_scope_witness :
    (Event.trigger [] ((evC2.suppressCallbackEnter cbF).2) [] []).log =
      (Event.trigger [] evC2 [] []).log.filter (fun inv => inv.cb ≠ cbF) :=
  (suppress_callback_scope evC2 cbF [] [] (by decide)).2.2.1

/-! World-level dictionary lemmas for the suppressor proofs. -/

theorem natLookup_natStore_self {α : Type} :
    ∀ (l : List (Nat × α)) (n : Nat) (a : α),
    natLookup (natStore l n a) n = some a := by
  intro l
  induction l with
  | nil => intro n a; simp [natStore, natLookup]
  | cons p t ih =>
    intro n a
    obtain ⟨pk, pv⟩ := p
    by_cases h : pk = n <;> simp [natStore, natLookup, h, ih]

theorem natLookup_natStore_other {α : Type} :
    ∀ (l : List (Nat × α)) (n j : Nat) (a : α), j ≠ n →
    natLookup (natStore l n a) j = natLookup l j := by
  intro l
  induction l with
  | nil =>
    intro n j a hj
    have h2 : ¬n = j := fun h => hj h.symm
    simp [natStore, natLookup, h2]
  | cons p t ih =>
    intro n j a hj
    obtain ⟨pk, pv⟩ := p
    by_cases h : pk = n
    · subst h
      have h2 : ¬pk = j := fun h => hj h.symm
      simp [natStore, natLookup, h2]
    · simp [natStore, natLookup, h, ih _ _ _ hj]

theorem getEvent_set_self (w : World) (i : Nat) (e : Event) :
    (w.setEvent i e).getEvent i = e := by
  simp [World.getEvent, World.setEvent, natLookup_natStore_self]

theorem getEvent_set_other (w : World) (i j : Nat) (e : Event) (h : j ≠ i) :
    (w.setEvent i e).getEvent j = w.getEvent j := by
  simp [World.getEvent, World.setEvent, natLookup_natStore_other _ _ _ _ h]

theorem setEvent_containers (w : World) (i : Nat) (e : Event) :
    (w.setEvent i e).containers = w.containers := rfl

theorem memUnder_setSuppress (e : Event) (b : Bool) (sel : Nargs) (g : Callback) :
    (e.setSuppress b).memUnder sel g = e.memUnder sel g := rfl

theorem memW_setFlag (w : World) (i : Nat) (b : Bool) (j : Nat) (sel : Nargs)
    (g : Callback) :
    (w.setEvent i ((w.getEvent i).setSuppress b)).memW j sel g = w.memW j sel g := by
  by_cases h : j = i
  · subst h
    simp [World.memW, getEvent_set_self, memUnder_setSuppress]
  · simp [World.memW, getEvent_set_other w i j _ h]

theorem flagW_setFlag_self (w : World) (i : Nat) (b : Bool) :
    (w.setEvent i ((w.getEvent i).setSuppress b)).flagW i = b := by
  simp [World.flagW, getEvent_set_self, Event.setSuppress]

theorem flagW_set_other (w : World) (i j : Nat) (e : Event) (h : j ≠ i) :
    (w.setEvent i e).flagW j = w.flagW j := by
  simp [World.flagW, getEvent_set_other w i j e h]

theorem runBody_spec (body : List BodyAct) :
    ∀ w : World,
    (∀ j sel g, ((runBody body w).1).memW j sel g = w.memW j sel g) ∧
    ((runBody body w).1).containers = w.containers := by
  induction body with
  | nil => intro w; exact ⟨fun _ _ _ => rfl, rfl⟩
  | cons act t ih =>
    intro w
    cases act with
    | setFlag eid b =>
      refine ⟨fun j sel g => ?_, ?_⟩
      · rw [show runBody (BodyAct.setFlag eid b :: t) w =
            runBody t (w.setEvent eid ((w.getEvent eid).setSuppress b)) from rfl,
          (ih _).1 j sel g, memW_setFlag]
      · rw [show runBody (BodyAct.setFlag eid b :: t) w =
            runBody t (w.setEvent eid ((w.getEvent eid).setSuppress b)) from rfl,
          (ih _).2, setEvent_containers]
    | raiseErr e => exact ⟨fun _ _ _ => rfl, rfl⟩

theorem natStore_absent {α : Type} :
    ∀ (l : List (Nat × α)) (n : Nat) (a : α), natLookup l n = none →
    natStore l n a = l ++ [(n, a)] := by
  intro l
  induction l with
  | nil => intro n a _; rfl
  | cons p t ih =>
    intro n a h
    obtain ⟨pk, pv⟩ := p
    by_cases hk : pk = n
    · rw [natLookup, if_pos hk] at h
      cases h
    · rw [natLookup, if_neg hk] at h
      simp [natStore, hk, ih _ _ h]

theorem natLookup_append_none {α : Type} :
    ∀ (l : List (Nat × α)) (n j : Nat) (a : α), natLookup l j = none → j ≠ n →
    natLookup (l ++ [(n, a)]) j = none := by
  intro l
  induction l with
  | nil =>
    intro n j a _ hj
    have h2 : ¬n = j := fun h => hj h.symm
    simp [natLookup, h2]
  | cons p t ih =>
    intro n j a h hj
    obtain ⟨pk, pv⟩ := p
    by_cases hk : pk = j
    · rw [natLookup, if_pos hk] at h
      cases h
    · rw [natLookup, if_neg hk] at h
      simp [natLookup, hk, ih _ _ _ h hj]

theorem evsEnter_def (w : World) (cid : Nat) :
    Events.suppressEnter w cid =
      (containerEventIds w cid).foldl (fun acc eid =>
        (natStore acc.1 eid (acc.2.getEvent eid).suppressFlag,
         acc.2.setEvent eid ((acc.2.getEvent eid).setSuppress true))) ([], w) := rfl

theorem evsFold_saved :
    ∀ (ids : List Nat) (acc : List (Nat × Bool)) (w : World),
    ids.Nodup → (∀ i ∈ ids, natLookup acc i = none) →
    (ids.foldl (fun acc eid =>
        (natStore acc.1 eid (acc.2.getEvent eid).suppressFlag,
         acc.2.setEvent eid ((acc.2.getEvent eid).setSuppress true))) (acc, w)).1 =
      acc ++ ids.map (fun i => (i, w.flagW i)) := by
  intro ids
  induction ids with
  | nil => intro acc w _ _; simp
  | cons i t ih =>
    intro acc w hnd hacc
    obtain ⟨hi, hnd2⟩ := List.nodup_cons.mp hnd
    rw [List.foldl_cons]
    have hstore : natStore acc i ((w.getEvent i).suppressFlag) =
        acc ++ [(i, w.flagW i)] :=
      natStore_absent acc i _ (hacc i (by simp))
    rw [show ((natStore acc i (((acc, w).2.getEvent i)).suppressFlag,
        (acc, w).2.setEvent i (((acc, w).2.getEvent i).setSuppress true))) =
        (acc ++ [(i, w.flagW i)],
         w.setEvent i ((w.getEvent i).setSuppress true)) from by rw [← hstore]]
    rw [ih _ _ hnd2 ?_]
    · rw [List.map_cons, List.append_assoc, List.singleton_append]
      congr 1
      congr 1
      apply List.map_congr_left
      intro i2 hi2
      have : i2 ≠ i := fun h => hi (h ▸ hi2)
      rw [flagW_set_other _ _ _ _ this]
    · intro i2 hi2
      have h2 : i2 ≠ i := fun h => hi (h ▸ hi2)
      exact natLookup_append_none acc i i2 _ (hacc i2 (by simp [hi2])) h2

theorem evsFold_mem :
    ∀ (ids : List Nat) (acc : List (Nat × Bool)) (w : World) (j : Nat)
      (sel : Nargs) (g : Callback),
    ((ids.foldl (fun acc eid =>
        (natStore acc.1 eid (acc.2.getEvent eid).suppressFlag,
         acc.2.setEvent eid ((acc.2.getEvent eid).setSuppress true))) (acc, w)).2).memW
        j sel g = w.memW j sel g := by
  intro ids
  induction ids with
  | nil => intro acc w j sel g; rfl
  | cons i t ih =>
    intro acc w j sel g
    rw [List.foldl_cons, ih, memW_setFlag]

theorem evsFold_flag_out :
    ∀ (ids : List Nat) (acc : List (Nat × Bool)) (w : World) (j : Nat),
    j ∉ ids →
    ((ids.foldl (fun acc eid =>
        (natStore acc.1 eid (acc.2.getEvent eid).suppressFlag,
         acc.2.setEvent eid ((acc.2.getEvent eid).setSuppress true))) (acc, w)).2).flagW
        j = w.flagW j := by
  intro ids
  induction ids with
  | nil => intro acc w j _; rfl
  | cons i t ih =>
    intro acc w j hj
    rw [List.foldl_cons, ih _ _ _ (fun h => hj (by simp [h])),
      flagW_set_other _ _ _ _ (fun h => hj (by simp [h]))]

theorem evsFold_containers :
    ∀ (ids : List Nat) (acc : List (Nat × Bool)) (w : World),
    ((ids.foldl (fun acc eid =>
        (natStore acc.1 eid (acc.2.getEvent eid).suppressFlag,
         acc.2.setEvent eid ((acc.2.getEvent eid).setSuppress true))) (acc, w)).2).containers
      = w.containers := by
  intro ids
  induction ids with
  | nil => intro acc w; rfl
  | cons i t ih =>
    intro acc w
    rw [List.foldl_cons, ih, setEvent_containers]

theorem evsExit_mem :
    ∀ (saved : List (Nat × Bool)) (w : World) (j : Nat) (sel : Nargs) (g : Callback),
    (Events.suppressExit saved w).memW j sel g = w.memW j sel g := by
  intro saved
  induction saved with
  | nil => intro w j sel g; rfl
  | cons p t ih =>
    intro w j sel g
    obtain ⟨pk, pb⟩ := p
    rw [show Events.suppressExit ((pk, pb) :: t) w =
        Events.suppressExit t (w.setEvent pk ((w.getEvent pk).setSuppress pb)) from rfl,
      ih, memW_setFlag]

theorem evsExit_containers :
    ∀ (saved : List (Nat × Bool)) (w : World),
    (Events.suppressExit saved w).containers = w.containers := by
  intro saved
  induction saved with
  | nil => intro w; rfl
  | cons p t ih =>
    intro w
    obtain ⟨pk, pb⟩ := p
    rw [show Events.suppressExit ((pk, pb) :: t) w =
        Events.suppressExit t (w.setEvent pk ((w.getEvent pk).setSuppress pb)) from rfl,
      ih, setEvent_containers]

theorem evsExit_flag :
    ∀ (saved : List (Nat × Bool)) (w : World) (j : Nat),
    (saved.map Prod.fst).Nodup →
    ((j ∉ saved.map Prod.fst →
        (Events.suppressExit saved w).flagW j = w.flagW j) ∧
     (∀ b, (j, b) ∈ saved → (Events.suppressExit saved w).flagW j = b)) := by
  intro saved
  induction saved with
  | nil => intro w j _; exact ⟨fun _ => rfl, by simp⟩
  | cons p t ih =>
    intro w j hnd
    obtain ⟨pk, pb⟩ := p
    rw [List.map_cons] at hnd
    obtain ⟨hpk, hnd2⟩ := List.nodup_cons.mp hnd
    have hstep : Events.suppressExit ((pk, pb) :: t) w =
        Events.suppressExit t (w.setEvent pk ((w.getEvent pk).setSuppress pb)) := rfl
    constructor
    · intro hj
      rw [List.map_cons] at hj
      have hj1 : j ≠ pk := fun h => hj (by simp [h])
      have hj2 : j ∉ t.map Prod.fst := fun h => hj (by simp [h])
      rw [hstep, (ih _ j hnd2).1 hj2, flagW_set_other _ _ _ _ hj1]
    · intro b hb
      rcases List.mem_cons.mp hb with hb | hb
      · injection hb with hb1 hb2
        subst hb1
        subst hb2
        rw [hstep, (ih _ j hnd2).1 hpk, flagW_setFlag_self]
      · rw [hstep, (ih _ j hnd2).2 b hb]

theorem cmEnter_evS (w : World) (eid : Nat) :
    cmEnter w (CM.evSuppress eid) =
      (.evS eid (w.flagW eid),
       w.setEvent eid ((w.getEvent eid).setSuppress true)) := rfl

theorem cmEnter_evsS (w : World) (cid : Nat) :
    cmEnter w (CM.evsSuppress cid) =
      (.evsS (Events.suppressEnter w cid).1, (Events.suppressEnter w cid).2) := by
  rcases h : Events.suppressEnter w cid with ⟨saved, w1⟩
  simp [cmEnter, h]

theorem cmEnter_scS (w : World) (eid : Nat) (f : Callback) :
    cmEnter w (CM.scSuppress eid f) =
      (.scS eid f ((w.getEvent eid).suppressCallbackEnter f).1,
       w.setEvent eid ((w.getEvent eid).suppressCallbackEnter f).2) := by
  rcases h : (w.getEvent eid).suppressCallbackEnter f with ⟨found, e1⟩
  simp [cmEnter, h]

theorem scEnter_fst (e : Event) (f : Callback) :
    (e.suppressCallbackEnter f).1 = e.scFound f := by
  simp only [Event.suppressCallbackEnter]
  by_cases h : (e.scFound f).isEmpty
  · rw [if_pos (by simp [h])]
    rw [List.isEmpty_iff] at h
    exact h.symm
  · rw [if_neg (by simp [h])]

theorem scEnter_suppressFlag (e : Event) (f : Callback) :
    (e.suppressCallbackEnter f).2.suppressFlag = e.suppressFlag := by
  simp only [Event.suppressCallbackEnter]
  split <;> rfl

theorem cmEnter_containers (w : World) (cm : CM) :
    (cmEnter w cm).2.containers = w.containers := by
  cases cm with
  | evSuppress eid => rfl
  | evsSuppress cid =>
    rw [cmEnter_evsS, evsEnter_def, evsFold_containers]
  | scSuppress eid f =>
    rw [cmEnter_scS, setEvent_containers]

theorem cmFlagTargets_congr (w w2 : World) (h : w2.containers = w.containers)
    (cm : CM) : cmFlagTargets w2 cm = cmFlagTargets w cm := by
  cases cm <;> simp [cmFlagTargets, containerEventIds, h]

theorem evsEnter_saved (w : World) (cid : Nat)
    (hnd : (containerEventIds w cid).Nodup) :
    (Events.suppressEnter w cid).1 =
      (containerEventIds w cid).map (fun i => (i, w.flagW i)) := by
  rw [evsEnter_def]
  exact evsFold_saved _ [] w hnd (fun i _ => rfl)

theorem cm_restore_mem (w : World) (cm : CM) (w2 : World)
    (hyp : ∀ j sel g, w2.memW j sel g = (cmEnter w cm).2.memW j sel g) :
    ∀ j sel g, (cmExit w2 (cmEnter w cm).1).memW j sel g = w.memW j sel g := by
  intro j sel g
  cases cm with
  | evSuppress e0 =>
    rw [cmEnter_evS] at hyp ⊢
    have hexit : (cmExit w2 (Entered.evS e0 (w.flagW e0))).memW j sel g
        = w2.memW j sel g := by
      show (w2.setEvent e0 ((w2.getEvent e0).suppressExit (w.flagW e0))).memW j sel g
        = w2.memW j sel g
      by_cases hj : j = e0
      · subst hj
        simp [World.memW, getEvent_set_self, Event.suppressExit, Event.memUnder, getSet]
      · simp [World.memW, getEvent_set_other w2 e0 j _ hj]
    rw [hexit, hyp j sel g, memW_setFlag]
  | evsSuppress cid =>
    rw [cmEnter_evsS] at hyp ⊢
    show (Events.suppressExit (Events.suppressEnter w cid).1 w2).memW j sel g
      = w.memW j sel g
    rw [evsExit_mem, hyp j sel g, evsEnter_def, evsFold_mem]
  | scSuppress e0 f =>
    rw [cmEnter_scS] at hyp ⊢
    show (w2.setEvent e0 ((w2.getEvent e0).suppressCallbackExit f
        ((w.getEvent e0).suppressCallbackEnter f).1)).memW j sel g = w.memW j sel g
    by_cases hj : j = e0
    · subst hj
      rw [scEnter_fst]
      simp only [World.memW, getEvent_set_self]
      have hyp2 := hyp j sel g
      simp only [World.memW, getEvent_set_self] at hyp2
      simp only [Event.memUnder] at hyp2 ⊢
      rw [decide_eq_decide] at hyp2 ⊢
      rw [mem_getSet_scExit, hyp2]
      by_cases hempty : (w.getEvent j).scFound f = []
      · have hsc : (w.getEvent j).suppressCallbackEnter f = ([], w.getEvent j) := by
          simp [Event.suppressCallbackEnter, hempty]
        rw [hsc, hempty]
        simp
      · have he : ((w.getEvent j).scFound f).isEmpty = false := by
          cases h2 : (w.getEvent j).scFound f with
          | nil => exact absurd h2 hempty
          | cons x t => rfl
        have hsc : (w.getEvent j).suppressCallbackEnter f =
            ((w.getEvent j).scFound f, (w.getEvent j).disconnect f) := by
          simp [Event.suppressCallbackEnter, he]
        rw [hsc]
        simp only []
        rw [mem_getSet_disconnect]
        constructor
        · rintro (⟨hmem, _⟩ | ⟨hgf, hmem⟩)
          · exact hmem
          · subst hgf
            exact (mem_scFound _ g sel).mp hmem
        · intro hmem
          by_cases hgf : g = f
          · subst hgf
            exact Or.inr ⟨rfl, (mem_scFound _ g sel).mpr hmem⟩
          · exact Or.inl ⟨hmem, hgf⟩
    · simp only [World.memW, getEvent_set_other w2 e0 j _ hj]
      have hyp2 := hyp j sel g
      simp only [World.memW, getEvent_set_other w e0 j _ hj] at hyp2
      exact hyp2

theorem cm_restore_flag_target (w : World) (cm : CM)
    (hnd : ∀ cid, cm = CM.evsSuppress cid → (containerEventIds w cid).Nodup)
    (w2 : World) (eid : Nat) (ht : eid ∈ cmFlagTargets w cm) :
    (cmExit w2 (cmEnter w cm).1).flagW eid = w.flagW eid := by
  cases cm with
  | evSuppress e0 =>
    simp only [cmFlagTargets, List.mem_singleton] at ht
    subst ht
    rw [cmEnter_evS]
    show (w2.setEvent eid ((w2.getEvent eid).suppressExit (w.flagW eid))).flagW eid
      = w.flagW eid
    simp [World.flagW, getEvent_set_self, Event.suppressExit]
  | evsSuppress cid =>
    simp only [cmFlagTargets] at ht
    have hnd2 := hnd cid rfl
    rw [cmEnter_evsS]
    show (Events.suppressExit (Events.suppressEnter w cid).1 w2).flagW eid
      = w.flagW eid
    rw [evsEnter_saved w cid hnd2]
    have hkeys : ((containerEventIds w cid).map
        (fun i => (i, w.flagW i))).map Prod.fst = containerEventIds w cid := by
      rw [List.map_map,
        show (Prod.fst ∘ fun i : Nat => (i, w.flagW i)) = id from rfl, List.map_id]
    refine (evsExit_flag _ w2 eid (by rw [hkeys]; exact hnd2)).2 (w.flagW eid) ?_
    rw [List.mem_map]
    exact ⟨eid, ht, rfl⟩
  | scSuppress e0 f =>
    simp [cmFlagTargets] at ht

theorem cm_restore_flag_other (w : World) (cm : CM)
    (hnd : ∀ cid, cm = CM.evsSuppress cid → (containerEventIds w cid).Nodup)
    (w2 : World) (eid : Nat) (ht : eid ∉ cmFlagTargets w cm) :
    (cmExit w2 (cmEnter w cm).1).flagW eid = w2.flagW eid := by
  cases cm with
  | evSuppress e0 =>
    simp only [cmFlagTargets, List.mem_singleton] at ht
    rw [cmEnter_evS]
    show (w2.setEvent e0 ((w2.getEvent e0).suppressExit (w.flagW e0))).flagW eid
      = w2.flagW eid
    rw [flagW_set_other _ _ _ _ ht]
  | evsSuppress cid =>
    simp only [cmFlagTargets] at ht
    have hnd2 := hnd cid rfl
    rw [cmEnter_evsS]
    show (Events.suppressExit (Events.suppressEnter w cid).1 w2).flagW eid
      = w2.flagW eid
    rw [evsEnter_saved w cid hnd2]
    have hkeys : ((containerEventIds w cid).map
        (fun i => (i, w.flagW i))).map Prod.fst = containerEventIds w cid := by
      rw [List.map_map,
        show (Prod.fst ∘ fun i : Nat => (i, w.flagW i)) = id from rfl, List.map_id]
    exact (evsExit_flag _ w2 eid (by rw [hkeys]; exact hnd2)).1 (by rw [hkeys]; exact ht)
  | scSuppress e0 f =>
    rw [cmEnter_scS]
    show (w2.setEvent e0 ((w2.getEvent e0).suppressCallbackExit f
        ((w.getEvent e0).suppressCallbackEnter f).1)).flagW eid = w2.flagW eid
    by_cases hj : eid = e0
    · rw [hj, World.flagW, getEvent_set_self, scExit_suppressFlag, World.flagW]
    · rw [flagW_set_other _ _ _ _ hj]

theorem cm_enter_flag_other (w : World) (cm : CM) (eid : Nat)
    (ht : eid ∉ cmFlagTargets w cm) :
    (cmEnter w cm).2.flagW eid = w.flagW eid := by
  cases cm with
  | evSuppress e0 =>
    simp only [cmFlagTargets, List.mem_singleton] at ht
    rw [cmEnter_evS]
    exact flagW_set_other _ _ _ _ ht
  | evsSuppress cid =>
    simp only [cmFlagTargets] at ht
    rw [cmEnter_evsS, evsEnter_def]
    exact evsFold_flag_out _ [] w eid ht
  | scSuppress e0 f =>
    rw [cmEnter_scS]
    by_cases hj : eid = e0
    · rw [hj, World.flagW, getEvent_set_self, scEnter_suppressFlag, World.flagW]
    · exact flagW_set_other _ _ _ _ hj

theorem es_suppress_nil (w : World) (body : List BodyAct) :
    EventSupressor.suppress [] w body = runBody body w := rfl

theorem es_suppress_used (cm : CM) (rest : List (CM × Bool)) (w : World)
    (body : List BodyAct) :
    EventSupressor.suppress ((cm, true) :: rest) w body =
      (w, some PyErr.runtimeError) := rfl

theorem es_suppress_cons (cm : CM) (rest : List (CM × Bool)) (w : World)
    (body : List BodyAct) :
    EventSupressor.suppress ((cm, false) :: rest) w body =
      (cmExit (EventSupressor.suppress rest (cmEnter w cm).2 body).1 (cmEnter w cm).1,
       (EventSupressor.suppress rest (cmEnter w cm).2 body).2) := by
  rcases hce : cmEnter w cm with ⟨ent, w1⟩
  rcases hec : enterChain w1 rest with ⟨ents, w2, er⟩
  have hchain : enterChain w ((cm, false) :: rest) = (ent :: ents, w2, er) := by
    simp [enterChain, hce, hec]
  unfold EventSupressor.suppress
  rw [hchain, hec]
  cases er with
  | some e =>
    simp [exitChain, List.foldl_append]
  | none =>
    rcases runBody body w2 with ⟨w3, er2⟩
    simp [exitChain, List.foldl_append]

/-- C7 (amended): entering an `EventSupressor`'s scope and leaving it — no
matter whether the body completed, the body raised, or some handle's entry
raised partway through (a handle whose generator was already consumed raises
`RuntimeError` on re-entry) — restores every target's suppression state,
*provided* no bare-`Events` target's container registers the same event
under two names: the connection state of every event is exactly as before
the scope, and the suppression flag of every event targeted by a
`suppress()`-style handle is restored to its pre-entry value.  The body may
flip suppression flags and may raise.  The aliased-container proviso is
forced by the counterexample `es_suppress_alias_counterexample` below:
there `Events.suppress` overwrites its saved flag on the second visit and
restoration fails. -/
theorem es_suppress_restores (cms : List (CM × Bool)) :
    ∀ (w : World) (body : List BodyAct),
    (∀ p ∈ cms, ∀ cid, p.1 = CM.evsSuppress cid → (containerEventIds w cid).Nodup) →
    (∀ eid sel g, ((EventSupressor.suppress cms w body).1).memW eid sel g =
        w.memW eid sel g) ∧
    (∀ p ∈ cms, ∀ eid, eid ∈ cmFlagTargets w p.1 →
        ((EventSupressor.suppress cms w body).1).flagW eid = w.flagW eid) := by
  induction cms with
  | nil =>
    intro w body _
    rw [es_suppress_nil]
    exact ⟨(runBody_spec body w).1, by simp⟩
  | cons p rest ih =>
    obtain ⟨cm, used⟩ := p
    intro w body hnd
    cases used with
    | true =>
      rw [es_suppress_used]
      exact ⟨fun _ _ _ => rfl, fun _ _ _ _ => rfl⟩
    | false =>
      rw [es_suppress_cons]
      have hcont : (cmEnter w cm).2.containers = w.containers := cmEnter_containers w cm
      have hnd1 : ∀ cid, cm = CM.evsSuppress cid → (containerEventIds w cid).Nodup :=
        fun cid h => hnd (cm, false) (by simp) cid h
      have hndr : ∀ p2 ∈ rest, ∀ cid, p2.1 = CM.evsSuppress cid →
          (containerEventIds (cmEnter w cm).2 cid).Nodup := by
        intro p2 hp2 cid h2
        have : containerEventIds (cmEnter w cm).2 cid = containerEventIds w cid := by
          simp [containerEventIds, hcont]
        rw [this]
        exact hnd p2 (by simp [hp2]) cid h2
      obtain ⟨ihm, ihf⟩ := ih (cmEnter w cm).2 body hndr
      constructor
      · intro j sel g
        exact cm_restore_mem w cm _ (fun j2 sel2 g2 => ihm j2 sel2 g2) j sel g
      · intro p2 hp2 eid ht
        rcases List.mem_cons.mp hp2 with hp2 | hp2
        · have : p2.1 = cm := by rw [hp2]
          rw [this] at ht
          exact cm_restore_flag_target w cm hnd1 _ eid ht
        · by_cases hhead : eid ∈ cmFlagTargets w cm
          · exact cm_restore_flag_target w cm hnd1 _ eid hhead
          · rw [cm_restore_flag_other w cm hnd1 _ eid hhead]
            have ht2 : eid ∈ cmFlagTargets (cmEnter w cm).2 p2.1 := by
              rw [cmFlagTargets_congr w (cmEnter w cm).2 hcont p2.1]
              exact ht
            rw [ihf p2 hp2 eid ht2]
            exact cm_enter_flag_other w cm eid hhead

/-- Witness for C7: a suppressor over an already-suppressed event, a
per-callback scope, and a whole container; the body flips a flag and then
raises — afterwards the targeted flag and the callback connections are
restored. -/
theorem es_suppress_restores_witness :
    ((EventSupressor.suppress
        [(CM.evSuppress 1, false), (CM.scSuppress 2 cbF, false),
         (CM.evsSuppress 10, false)]
        ⟨[(1, ⟨"", none, [(Nargs.all, [cbF])], true, false⟩), (2, evC2)],
         [(10, [("a", 1), ("b", 2)])]⟩
        [BodyAct.setFlag 1 false, BodyAct.raiseErr PyErr.typeError]).1).flagW 1
      = true ∧
    ((EventSupressor.suppress
        [(CM.evSuppress 1, false), (CM.scSuppress 2 cbF, false),
         (CM.evsSuppress 10, false)]
        ⟨[(1, ⟨"", none, [(Nargs.all, [cbF])], true, false⟩), (2, evC2)],
         [(10, [("a", 1), ("b", 2)])]⟩
        [BodyAct.setFlag 1 false, BodyAct.raiseErr PyErr.typeError]).1).memW 2
        Nargs.all cbG = true := by
  have h := es_suppress_restores
    [(CM.evSuppress 1, false), (CM.scSuppress 2 cbF, false),
     (CM.evsSuppress 10, false)]
    ⟨[(1, ⟨"", none, [(Nargs.all, [cbF])], true, false⟩), (2, evC2)],
     [(10, [("a", 1), ("b", 2)])]⟩
    [BodyAct.setFlag 1 false, BodyAct.raiseErr PyErr.typeError]
    (by
      intro p hp cid hcid
      fin_cases hp
      · cases hcid
      · cases hcid
      · injection hcid with h2
        subst h2
        decide)
  constructor
  · rw [h.2 (CM.evSuppress 1, false) (by simp) 1 (by decide)]
    decide
  · rw [h.1 2 Nargs.all cbG]
    decide

/-- C7 counterexample: the claim as stated fails when a container registers
the same event under two names — a state `Events.__setattr__` permits.
`Events.suppress` keys its save dict by event object (`old[e] = e._suppress`
inside the loop), so the second visit overwrites the saved `False` with the
`True` set by the first visit; on exit the event is restored to `True`.
An `EventSupressor` over that container therefore leaves its target
suppressed after the scope, even though the pre-entry flag was unsuppressed
and the body did nothing. -/
theorem es_suppress_alias_counterexample :
    ((EventSupressor.suppress [(CM.evsSuppress 10, false)]
        ⟨[(1, Event.init "" none)], [(10, [("a", 1), ("b", 1)])]⟩ []).1).flagW 1
      = true ∧
    (⟨[(1, Event.init "" none)], [(10, [("a", 1), ("b", 1)])]⟩ : World).flagW 1
      = false :=
  ⟨rfl, rfl⟩
